import Mathlib

/-!
Verification of the prosody-extractor core (mdefaria/mreader).

Shallow embedding conventions:
* Python strings are `List Char`; whitespace and `\w` are modelled over the
  ASCII character classes (all concrete inputs in the repository's tests and
  examples are ASCII).
* Python `float` values are modelled as `ℚ`.  Every float literal in the
  embedded code (1.1, 1.2, 1.3, 1.5, 1.8, 2.0, 2.5, 0.33, 0.5) is mapped to
  the exact rational it denotes; for the quantities analysed here the binary
  rounding of IEEE doubles never crosses an integer or a comparison
  threshold, so the rational semantics agrees with the Python semantics.
* Python `int(x)` truncates toward zero; `x // y` on naturals is `Nat` division.
* `time.time()` is modelled by passing the elapsed processing time as an
  explicit parameter, the one source of nondeterminism in `analyze`.
* Field names follow the source; Python's `end` is a Lean keyword and is
  rendered `end_`.
-/

/-- ASCII whitespace, the character class of Python `str.split()` / `\s`
on the repository's inputs. -/
def isSpaceChar (c : Char) : Bool :=
  c = ' ' || c = '\t' || c = '\n' || c = '\r' || c = '\x0b' || c = '\x0c'

theorem dropWhile_length_le (p : α → Bool) (l : List α) :
    (l.dropWhile p).length ≤ l.length :=
  (List.dropWhile_sublist p (l := l)).length_le

/-- Python `text.split()` (no separator): the maximal runs of
non-whitespace characters, in order. -/
def pySplit : List Char → List (List Char)
  | [] => []
  | c :: cs =>
    if isSpaceChar c then pySplit cs
    else (c :: cs.takeWhile (fun d => !isSpaceChar d)) ::
      pySplit (cs.dropWhile (fun d => !isSpaceChar d))
termination_by l => l.length
decreasing_by
  all_goals simp
  exact Nat.lt_succ_of_le (dropWhile_length_le _ _)

/-- Python `s.strip()`: remove leading and trailing whitespace. -/
def pyStrip (l : List Char) : List Char :=
  ((l.dropWhile isSpaceChar).reverse.dropWhile isSpaceChar).reverse

/-- Python `int(x)` on a float: truncation toward zero. -/
def pyInt (x : ℚ) : ℤ :=
  if 0 ≤ x then ⌊x⌋ else ⌈x⌉

/-- Python `round` for n-digit rounding: round half to even. -/
def pyRound (x : ℚ) (ndigits : ℕ) : ℚ :=
  let scaled := x * (10 : ℚ) ^ ndigits
  let f : ℤ := ⌊scaled⌋
  let r := scaled - f
  let n : ℤ :=
    if r < 1/2 then f
    else if 1/2 < r then f + 1
    else if f % 2 = 0 then f else f + 1
  (n : ℚ) / (10 : ℚ) ^ ndigits

/-- A token produced by `tokenize_text`: `{text, start, end}` with half-open
character offsets (`end` is a Lean keyword, rendered `end_`). -/
structure Token where
  text : List Char
  start : ℕ
  end_ : ℕ
deriving DecidableEq, Repr

/-- `tokenize_text` worker: scan from offset `pos`, emitting each maximal
run of non-whitespace characters with its offsets (`re.finditer(r'\S+')`). -/
def tokenizeAux : List Char → ℕ → List Token
  | [], _ => []
  | c :: cs, pos =>
    if isSpaceChar c then tokenizeAux cs (pos + 1)
    else
      let run := c :: cs.takeWhile (fun d => !isSpaceChar d)
      ⟨run, pos, pos + run.length⟩ ::
        tokenizeAux (cs.dropWhile (fun d => !isSpaceChar d)) (pos + run.length)
termination_by l _ => l.length
decreasing_by
  all_goals simp
  exact Nat.lt_succ_of_le (dropWhile_length_le _ _)

/-- `tokenize_text` (src/utils/helpers.py): tokens with position information. -/
def tokenize_text (text : List Char) : List Token :=
  tokenizeAux text 0

/-- Python `\w` on ASCII: alphanumeric or underscore. -/
def isWordChar (c : Char) : Bool :=
  c.isAlphanum || c = '_'

/-- `strip_punctuation` (src/utils/helpers.py): `re.sub(r'[^\w]', '', word)`. -/
def strip_punctuation (word : List Char) : List Char :=
  word.filter isWordChar

/-- The character class of `get_trailing_punctuation`: `[.,;:!?—…\-]`. -/
def isTrailPunctChar (c : Char) : Bool :=
  c = '.' || c = ',' || c = ';' || c = ':' || c = '!' || c = '?' ||
  c = '—' || c = '…' || c = '-'

/-- `get_trailing_punctuation` (src/utils/helpers.py): first character of the
maximal run of `[.,;:!?—…\-]` at the end of the word, or `none` if the last
character is not in the class (`re.search(r'[.,;:!?—…\-]+$', word)`). -/
def get_trailing_punctuation (word : List Char) : Option Char :=
  (word.reverse.takeWhile isTrailPunctChar).getLast?

/-- `calculate_pivot_index` (src/utils/helpers.py).  `int(length * 0.33)` is
`length * 33 / 100` in exact arithmetic (the double 0.33 exceeds 33/100 by
less than half an ulp of any attainable product, so the truncations agree). -/
def calculate_pivot_index (word : List Char) : ℕ :=
  let length := word.length
  if length ≤ 1 then 0
  else if length ≤ 3 then 1
  else if length ≤ 5 then 2
  else length * 33 / 100

/-- `validate_text_length` (src/utils/helpers.py): error on empty or
whitespace-only text, then on text longer than `max_length`. -/
def validate_text_length (text : List Char) (max_length : ℕ := 500000) :
    Except String Unit :=
  if text.isEmpty || (pyStrip text).isEmpty then
    Except.error "Text cannot be empty"
  else if text.length > max_length then
    Except.error "Text length exceeds maximum"
  else
    Except.ok ()

/-- `Emphasis` (src/models/schemas.py). -/
inductive Emphasis where
  | none
  | low
  | medium
  | high
deriving DecidableEq, Repr

/-- `Tone` (src/models/schemas.py). -/
inductive Tone where
  | neutral
  | rising
  | falling
deriving DecidableEq, Repr

/-- `ProsodyData` (src/models/schemas.py). -/
structure ProsodyData where
  pause : ℚ
  pauseAfter : ℤ
  emphasis : Emphasis
  tone : Tone
  pitch : Option ℚ := Option.none
  loudness : Option ℚ := Option.none
deriving DecidableEq, Repr

/-- `Word` (src/models/schemas.py). -/
structure Word where
  text : List Char
  index : ℕ
  start : ℕ
  end_ : ℕ
  pivotIndex : ℕ
  baseDelay : ℕ
  prosody : ProsodyData
deriving DecidableEq, Repr

/-- `ProcessingMetadata` (src/models/schemas.py). -/
structure ProcessingMetadata where
  wordCount : ℕ
  avgWordLength : ℚ
  totalPauses : Option ℕ := Option.none
  emphasisCount : Option ℕ := Option.none
  processingTime : Option ℚ := Option.none
  model : Option String := Option.none
deriving DecidableEq, Repr

/-- `ProsodyResult` (src/models/schemas.py). -/
structure ProsodyResult where
  version : String := "1.0"
  method : String
  metadata : ProcessingMetadata
  words : List Word
deriving DecidableEq, Repr

/-- `AnalysisOptions` (src/models/schemas.py); pydantic bounds on the fields
are expressed by `validOptions` below. -/
structure AnalysisOptions where
  wpm : ℕ := 300
  sensitivity : ℚ := 7/10
deriving DecidableEq, Repr

/-- The pydantic field constraints of `AnalysisOptions`:
`wpm ∈ [100, 1000]`, `sensitivity ∈ [0, 1]`. -/
def validOptions (o : AnalysisOptions) : Prop :=
  100 ≤ o.wpm ∧ o.wpm ≤ 1000 ∧ 0 ≤ o.sensitivity ∧ o.sensitivity ≤ 1

instance (o : AnalysisOptions) : Decidable (validOptions o) := by
  unfold validOptions; infer_instance

/-- Python `' '.join(chunks)`: the pieces joined by single spaces. -/
def joinSpace : List (List Char) → List Char
  | [] => []
  | [w] => w
  | w :: ws => w ++ ' ' :: joinSpace ws

/-- `BaseProsodyProvider.preprocess_text` (src/providers/base.py):
`' '.join(text.split())`. -/
def preprocess_text (text : List Char) : List Char :=
  joinSpace (pySplit text)

/-- `RuleBasedProvider.PUNCTUATION_PAUSES` (src/providers/rule_based.py),
as the lookup `PUNCTUATION_PAUSES.get(c, 1.0)`. -/
def PUNCTUATION_PAUSES (c : Char) : ℚ :=
  if c = '.' then 5/2
  else if c = '!' then 5/2
  else if c = '?' then 5/2
  else if c = ';' then 2
  else if c = ':' then 9/5
  else if c = ',' then 3/2
  else if c = '—' then 3/2
  else if c = '-' then 13/10
  else if c = '…' then 2
  else 1

/-- Python `s.isupper()` on ASCII: at least one cased character and every
cased character uppercase. -/
def pyIsUpper (s : List Char) : Bool :=
  s.any (fun c => c.isAlpha) && s.all (fun c => !c.isAlpha || c.isUpper)

/-- `RuleBasedProvider._analyze_word` (src/providers/rule_based.py).  The
sequential mutations of `prosody_data` become a chain of record updates; the
Python indexing `all_tokens[index - 1]` is modelled with `List.get?` (every
caller passes an in-range index). -/
def analyze_word (token : Token) (index : ℕ) (all_tokens : List Token)
    (options : AnalysisOptions) : Word :=
  let text := token.text
  let base_delay_ms := 60000 / options.wpm
  let clean_text := strip_punctuation text
  let pivot := calculate_pivot_index clean_text
  let p0 : ProsodyData :=
    { pause := 1, pauseAfter := 0, emphasis := Emphasis.none, tone := Tone.neutral }
  -- Check for trailing punctuation
  let p1 :=
    match get_trailing_punctuation text with
    | Option.some tp =>
      if options.sensitivity > 0 then
        let pause_mult := PUNCTUATION_PAUSES tp
        { p0 with
          pause := 1 + (pause_mult - 1) * options.sensitivity
          pauseAfter := pyInt ((base_delay_ms : ℚ) * (pause_mult - 1) * (1/2))
          tone :=
            if tp = '?' then Tone.rising
            else if tp = '.' ∨ tp = '!' then Tone.falling
            else p0.tone }
      else p0
    | Option.none => p0
  -- Check for emphasis (all caps)
  let p2 :=
    if pyIsUpper clean_text ∧ clean_text.length > 2 then
      { p1 with emphasis := Emphasis.high, pause := p1.pause * (12/10) }
    else p1
  -- Longer words get slightly more time (source order: > 10 before > 15)
  let word_length := clean_text.length
  let p3 :=
    if word_length > 10 then { p2 with pause := p2.pause * (11/10) }
    else if word_length > 15 then { p2 with pause := p2.pause * (12/10) }
    else p2
  -- Check for paragraph boundaries (gap between tokens)
  let p4 :=
    if index > 0 then
      match all_tokens.get? (index - 1) with
      | Option.some prev =>
        if (token.start : ℤ) - (prev.end_ : ℤ) > 2 then
          { p3 with pauseAfter := p3.pauseAfter + (base_delay_ms : ℤ) }
        else p3
      | Option.none => p3
    else p3
  -- Detect dialogue (quote marks)
  let p5 :=
    if text.head? = Option.some '"' ∨ text.head? = Option.some '\'' then
      { p4 with emphasis := Emphasis.medium }
    else p4
  -- Detect emphasis markers
  let p6 :=
    if text.head? = Option.some '*' ∧ text.getLast? = Option.some '*' then
      { p5 with emphasis := Emphasis.medium }
    else p5
  { text := text, index := index, start := token.start, end_ := token.end_,
    pivotIndex := pivot, baseDelay := base_delay_ms, prosody := p6 }

/-- `RuleBasedProvider._calculate_metadata` (src/providers/rule_based.py). -/
def calculate_metadata (words : List Word) (processing_time : ℚ) :
    ProcessingMetadata :=
  let word_count := words.length
  let total_length := (words.map (fun w => (strip_punctuation w.text).length)).sum
  let avg_length : ℚ := if word_count > 0 then (total_length : ℚ) / word_count else 0
  let total_pauses := (words.filter (fun w => w.prosody.pauseAfter > 0)).length
  let emphasis_count := (words.filter (fun w => w.prosody.emphasis ≠ Emphasis.none)).length
  { wordCount := word_count
    avgWordLength := pyRound avg_length 2
    totalPauses := Option.some total_pauses
    emphasisCount := Option.some emphasis_count
    processingTime := Option.some (pyRound processing_time 4)
    model := Option.some "rule-based-v1.0" }

/-- `RuleBasedProvider.analyze` (src/providers/rule_based.py).
`processing_time` stands for the elapsed `time.time()` difference, the one
nondeterministic input; `postprocess_result` is the identity. -/
def analyze (text : List Char) (options : AnalysisOptions)
    (processing_time : ℚ) : Except String ProsodyResult :=
  match validate_text_length text with
  | Except.error e => Except.error e
  | Except.ok _ =>
    let t := preprocess_text text
    let tokens := tokenize_text t
    let words := tokens.enum.map (fun p => analyze_word p.2 p.1 tokens options)
    let metadata := calculate_metadata words processing_time
    Except.ok { method := "rule-based", metadata := metadata, words := words }

/-- `ProviderFactory._providers` (src/providers/base.py): the registry is a
`dict` from provider name to constructor, modelled as an insertion-ordered
association list; a constructor takes the `**kwargs` configuration `C` to a
provider instance `P` (Lean's typing plays the role of the `issubclass`
check in `register_provider`). -/
def dictInsert {α : Type} : List (String × α) → String → α → List (String × α)
  | [], n, v => [(n, v)]
  | (k, w) :: rest, n, v =>
    if k = n then (k, v) :: rest else (k, w) :: dictInsert rest n v

/-- `ProviderFactory.register_provider` (src/providers/base.py):
`cls._providers[name] = provider_class`. -/
def register_provider {P C : Type} (providers : List (String × (C → P)))
    (name : String) (provider_class : C → P) : List (String × (C → P)) :=
  dictInsert providers name provider_class

/-- `ProviderFactory.create_provider` (src/providers/base.py): unknown names
produce the error message listing all registered names; otherwise the stored
constructor is invoked on the configuration.  The registry is threaded
through unchanged (the classmethod never writes `cls._providers`). -/
def create_provider {P C : Type} (providers : List (String × (C → P)))
    (name : String) (config : C) :
    List (String × (C → P)) × Except String P :=
  match providers.lookup name with
  | Option.none =>
    (providers, Except.error ("Unknown provider: " ++ name ++
      ". Available providers: " ++ String.intercalate ", " (providers.map Prod.fst)))
  | Option.some ctor => (providers, Except.ok (ctor config))

/-- The sentence-terminator class of `_split_into_sentences`: `[.!?]`. -/
def isSentPunct (c : Char) : Bool :=
  c = '.' || c = '!' || c = '?'

/-- `re.split(r'([.!?]+)\s+', text)` as used by
`KokoroTTSProvider._split_into_sentences`: a match is a maximal run of
`[.!?]` immediately followed by whitespace; the run is the captured group and
the whitespace is consumed.  `acc` holds the current un-split segment,
reversed. -/
def reSplitSentAux : List Char → List Char → List (List Char)
  | [], acc => [acc.reverse]
  | c :: cs, acc =>
    if isSentPunct c then
      let run := c :: cs.takeWhile isSentPunct
      match hrest : cs.dropWhile isSentPunct with
      | d :: ds =>
        if isSpaceChar d then
          acc.reverse :: run :: reSplitSentAux (ds.dropWhile isSpaceChar) []
        else
          reSplitSentAux (d :: ds) (run.reverse ++ acc)
      | [] => [(run.reverse ++ acc).reverse]
    else
      reSplitSentAux cs (c :: acc)
termination_by l _ => l.length
decreasing_by
  · have h1 : (cs.dropWhile isSentPunct).length ≤ cs.length :=
      dropWhile_length_le _ _
    have h2 : (ds.dropWhile isSpaceChar).length ≤ ds.length :=
      dropWhile_length_le _ _
    rw [hrest] at h1
    simp_all
    omega
  · have h1 : (cs.dropWhile isSentPunct).length ≤ cs.length :=
      dropWhile_length_le _ _
    rw [hrest] at h1
    simp_all
    omega
  · simp

/-- The pairing loop of `_split_into_sentences`:
`for i in range(0, len(parts) - 1, 2): sentences.append(parts[i] + parts[i+1])`. -/
def pairUp : List (List Char) → List (List Char)
  | a :: b :: rest => (a ++ b) :: pairUp rest
  | _ => []

/-- `KokoroTTSProvider._split_into_sentences`
(src/providers/kokoro_tts_provider.py). -/
def split_into_sentences (text : List Char) : List (List Char) :=
  let parts := reSplitSentAux text []
  let sentences := pairUp parts ++
    (if parts.length % 2 = 1 then [parts.getLastD []] else [])
  (sentences.map pyStrip).filter (fun s => !s.isEmpty)

/-- The chunk-assembly loop of `KokoroTTSProvider.batch_analyze`
(src/providers/kokoro_tts_provider.py): accumulate whole sentences until the
word budget would be exceeded, flushing each full chunk through `chunkFn`
(the provider's `_extract_word_timing`, an out-of-scope TTS model kept
abstract here), then flush the remainder. -/
def batch_chunks_loop (chunkFn : List Char → AnalysisOptions → List Word)
    (options : AnalysisOptions) (chunk_size : ℕ) :
    List (List Char) → List (List Char) → ℕ → List Word
  | [], current_chunk, _ =>
    if !current_chunk.isEmpty then chunkFn (joinSpace current_chunk) options
    else []
  | sentence :: rest, current_chunk, current_word_count =>
    let sentence_words := tokenize_text sentence
    if current_word_count + sentence_words.length > chunk_size ∧
        ¬current_chunk.isEmpty then
      chunkFn (joinSpace current_chunk) options ++
        batch_chunks_loop chunkFn options chunk_size rest [sentence]
          sentence_words.length
    else
      batch_chunks_loop chunkFn options chunk_size rest
        (current_chunk ++ [sentence]) (current_word_count + sentence_words.length)

/-- `KokoroTTSProvider._calculate_metadata`
(src/providers/kokoro_tts_provider.py). -/
def kokoro_calculate_metadata (lang_code : String) (words : List Word)
    (processing_time : ℚ) : ProcessingMetadata :=
  let word_count := words.length
  let total_length := (words.map (fun w => (strip_punctuation w.text).length)).sum
  let avg_length : ℚ := if word_count > 0 then (total_length : ℚ) / word_count else 0
  let total_pauses := (words.filter (fun w => w.prosody.pauseAfter > 0)).length
  let emphasis_count := (words.filter (fun w => w.prosody.emphasis ≠ Emphasis.none)).length
  { wordCount := word_count
    avgWordLength := pyRound avg_length 2
    totalPauses := Option.some total_pauses
    emphasisCount := Option.some emphasis_count
    processingTime := Option.some (pyRound processing_time 4)
    model := Option.some ("kokoro-tts-82m-" ++ lang_code) }

/-- `KokoroTTSProvider.batch_analyze` (src/providers/kokoro_tts_provider.py):
sentence-bounded chunking, per-chunk analysis through `chunkFn`
(`_extract_word_timing`), concatenation in input order, then the re-indexing
loop `for i, word in enumerate(all_words): word.index = i`. -/
def batch_analyze (chunkFn : List Char → AnalysisOptions → List Word)
    (lang_code : String) (text : List Char) (options : AnalysisOptions)
    (chunk_size : ℕ) (processing_time : ℚ) : ProsodyResult :=
  let sentences := split_into_sentences text
  let all_words := batch_chunks_loop chunkFn options chunk_size sentences [] 0
  let reindexed := all_words.enum.map (fun p => { p.2 with index := p.1 })
  { method := "kokoro-tts"
    metadata := kokoro_calculate_metadata lang_code reindexed processing_time
    words := reindexed }

/-- Specification-side variant for the refinement claim about the
paragraph-gap heuristic: `_analyze_word` with the gap branch
(`if gap > 2: pauseAfter += base_delay`) removed, all else identical. -/
def analyze_word_no_gap (token : Token) (index : ℕ)
    (options : AnalysisOptions) : Word :=
  let text := token.text
  let base_delay_ms := 60000 / options.wpm
  let clean_text := strip_punctuation text
  let pivot := calculate_pivot_index clean_text
  let p0 : ProsodyData :=
    { pause := 1, pauseAfter := 0, emphasis := Emphasis.none, tone := Tone.neutral }
  let p1 :=
    match get_trailing_punctuation text with
    | Option.some tp =>
      if options.sensitivity > 0 then
        let pause_mult := PUNCTUATION_PAUSES tp
        { p0 with
          pause := 1 + (pause_mult - 1) * options.sensitivity
          pauseAfter := pyInt ((base_delay_ms : ℚ) * (pause_mult - 1) * (1/2))
          tone :=
            if tp = '?' then Tone.rising
            else if tp = '.' ∨ tp = '!' then Tone.falling
            else p0.tone }
      else p0
    | Option.none => p0
  let p2 :=
    if pyIsUpper clean_text ∧ clean_text.length > 2 then
      { p1 with emphasis := Emphasis.high, pause := p1.pause * (12/10) }
    else p1
  let word_length := clean_text.length
  let p3 :=
    if word_length > 10 then { p2 with pause := p2.pause * (11/10) }
    else if word_length > 15 then { p2 with pause := p2.pause * (12/10) }
    else p2
  let p5 :=
    if text.head? = Option.some '"' ∨ text.head? = Option.some '\'' then
      { p3 with emphasis := Emphasis.medium }
    else p3
  let p6 :=
    if text.head? = Option.some '*' ∧ text.getLast? = Option.some '*' then
      { p5 with emphasis := Emphasis.medium }
    else p5
  { text := text, index := index, start := token.start, end_ := token.end_,
    pivotIndex := pivot, baseDelay := base_delay_ms, prosody := p6 }

/-- Specification-side variant of `analyze` built on `analyze_word_no_gap`,
for the claim that the paragraph-gap bonus is unreachable through `analyze`. -/
def analyze_no_gap (text : List Char) (options : AnalysisOptions)
    (processing_time : ℚ) : Except String ProsodyResult :=
  match validate_text_length text with
  | Except.error e => Except.error e
  | Except.ok _ =>
    let t := preprocess_text text
    let tokens := tokenize_text t
    let words := tokens.enum.map (fun p => analyze_word_no_gap p.2 p.1 options)
    let metadata := calculate_metadata words processing_time
    Except.ok { method := "rule-based", metadata := metadata, words := words }

/-- Erase the `processingTime` field, the one nondeterministic output of
`analyze`, for the determinism statement. -/
def strip_processing_time (r : ProsodyResult) : ProsodyResult :=
  { r with metadata := { r.metadata with processingTime := Option.none } }

/-- Proof helper: the token list that tokenizing a single-space-joined word
list must produce, each word at its cumulative offset. -/
def expectedTokens : ℕ → List (List Char) → List Token
  | _, [] => []
  | pos, w :: ws => ⟨w, pos, pos + w.length⟩ :: expectedTokens (pos + w.length + 1) ws

/-- Stage view of `_analyze_word`, trailing-punctuation step: the prosody
after the `trailing_punct` block (initial state when no punctuation). -/
def pd_punct (text : List Char) (base_delay_ms : ℕ) (sensitivity : ℚ) :
    ProsodyData :=
  let p0 : ProsodyData :=
    { pause := 1, pauseAfter := 0, emphasis := Emphasis.none, tone := Tone.neutral }
  match get_trailing_punctuation text with
  | Option.some tp =>
    if sensitivity > 0 then
      let pause_mult := PUNCTUATION_PAUSES tp
      { p0 with
        pause := 1 + (pause_mult - 1) * sensitivity
        pauseAfter := pyInt ((base_delay_ms : ℚ) * (pause_mult - 1) * (1/2))
        tone :=
          if tp = '?' then Tone.rising
          else if tp = '.' ∨ tp = '!' then Tone.falling
          else p0.tone }
    else p0
  | Option.none => p0

/-- Stage view of `_analyze_word`, all-caps emphasis step. -/
def pd_caps (clean_text : List Char) (p : ProsodyData) : ProsodyData :=
  if pyIsUpper clean_text ∧ clean_text.length > 2 then
    { p with emphasis := Emphasis.high, pause := p.pause * (12/10) }
  else p

/-- Stage view of `_analyze_word`, word-length bonus step (source order:
`> 10` checked before `> 15`). -/
def pd_len (clean_text : List Char) (p : ProsodyData) : ProsodyData :=
  if clean_text.length > 10 then { p with pause := p.pause * (11/10) }
  else if clean_text.length > 15 then { p with pause := p.pause * (12/10) }
  else p

/-- Stage view of `_analyze_word`, paragraph-gap step. -/
def pd_gap (token : Token) (index : ℕ) (all_tokens : List Token)
    (base_delay_ms : ℕ) (p : ProsodyData) : ProsodyData :=
  if index > 0 then
    match all_tokens.get? (index - 1) with
    | Option.some prev =>
      if (token.start : ℤ) - (prev.end_ : ℤ) > 2 then
        { p with pauseAfter := p.pauseAfter + (base_delay_ms : ℤ) }
      else p
    | Option.none => p
  else p

/-- Stage view of `_analyze_word`, dialogue-quote step. -/
def pd_quote (text : List Char) (p : ProsodyData) : ProsodyData :=
  if text.head? = Option.some '"' ∨ text.head? = Option.some '\'' then
    { p with emphasis := Emphasis.medium }
  else p

/-- Stage view of `_analyze_word`, asterisk emphasis-marker step. -/
def pd_star (text : List Char) (p : ProsodyData) : ProsodyData :=
  if text.head? = Option.some '*' ∧ text.getLast? = Option.some '*' then
    { p with emphasis := Emphasis.medium }
  else p

/-- C8: `calculate_pivot_index` is total and returns 0 for length at most 1,
1 for lengths 2–3, 2 for lengths 4–5, and `floor(L * 0.33)` otherwise, and
the result is always below `max 1 L`. -/
theorem calculate_pivot_index_spec (w : List Char) :
    (w.length ≤ 1 → calculate_pivot_index w = 0) ∧
    (2 ≤ w.length ∧ w.length ≤ 3 → calculate_pivot_index w = 1) ∧
    (4 ≤ w.length ∧ w.length ≤ 5 → calculate_pivot_index w = 2) ∧
    (6 ≤ w.length → calculate_pivot_index w = w.length * 33 / 100) ∧
    calculate_pivot_index w < max 1 w.length := by
  unfold calculate_pivot_index
  refine ⟨?_, ?_, ?_, ?_, ?_⟩ <;> dsimp only <;> split_ifs <;> omega

/-- Witness for `calculate_pivot_index_spec`, at the 7-character word
"musical": `floor(7 * 0.33) = 2`. -/
theorem calculate_pivot_index_spec_witness :
    6 ≤ ("musical".toList).length ∧
      calculate_pivot_index ("musical".toList) = ("musical".toList).length * 33 / 100 :=
  ⟨by decide, (calculate_pivot_index_spec ("musical".toList)).2.2.2.1 (by decide)⟩

/-- C1 (code bug): for a word whose punctuation-stripped text has 16
characters (longer than 15), `_analyze_word` multiplies the pause by 1.1,
not the claimed 1.2 — the `word_length > 10` branch is checked first and
captures every word longer than 10 characters, so the `elif word_length > 15`
branch is unreachable. -/
theorem length_bonus_dead_branch :
    (analyze_word ⟨("abcdefghijklmnop".toList), 0, 16⟩ 0
        [⟨("abcdefghijklmnop".toList), 0, 16⟩] {}).prosody.pause = 11/10 ∧
    (analyze_word ⟨("abcdefghijklmnop".toList), 0, 16⟩ 0
        [⟨("abcdefghijklmnop".toList), 0, 16⟩] {}).prosody.pause ≠ 12/10 := by
  constructor <;>
    norm_num +decide [analyze_word, strip_punctuation, get_trailing_punctuation,
      isWordChar, isTrailPunctChar, pyIsUpper, calculate_pivot_index,
      PUNCTUATION_PAUSES, pyInt]

/-- C6: `create_provider` leaves the registry unchanged; on an unregistered
name it returns the unknown-provider error listing all registered names, and
on a registered name it invokes the stored constructor on the given
configuration (a new construction per call). -/
theorem create_provider_spec {P C : Type}
    (providers : List (String × (C → P))) (name : String) (config : C) :
    (create_provider providers name config).1 = providers ∧
    (providers.lookup name = Option.none →
      (create_provider providers name config).2 =
        Except.error ("Unknown provider: " ++ name ++ ". Available providers: " ++
          String.intercalate ", " (providers.map Prod.fst))) ∧
    (∀ ctor, providers.lookup name = Option.some ctor →
      (create_provider providers name config).2 = Except.ok (ctor config)) := by
  unfold create_provider
  cases h : providers.lookup name <;> simp_all

/-- Witness for `create_provider_spec` on a concrete two-entry registry:
the miss lists both names, the hit constructs from the configuration. -/
theorem create_provider_spec_witness :
    (create_provider [("rule-based", fun n : ℕ => n + 1), ("kokoro-tts", fun n : ℕ => n * 2)]
        "openai" 5).2 =
      Except.error "Unknown provider: openai. Available providers: rule-based, kokoro-tts" ∧
    (create_provider [("rule-based", fun n : ℕ => n + 1), ("kokoro-tts", fun n : ℕ => n * 2)]
        "kokoro-tts" 5).2 = Except.ok 10 := by
  constructor
  · have h := (create_provider_spec
      [("rule-based", fun n : ℕ => n + 1), ("kokoro-tts", fun n : ℕ => n * 2)]
      "openai" 5).2.1 rfl
    simpa using h
  · have h := (create_provider_spec
      [("rule-based", fun n : ℕ => n + 1), ("kokoro-tts", fun n : ℕ => n * 2)]
      "kokoro-tts" 5).2.2 (fun n : ℕ => n * 2) rfl
    simpa using h

/-- C3: the rule-based `analyze` is a pure function of `(text, options)` —
two runs differing only in elapsed wall time agree on every field of every
word and of the metadata except `processingTime`. -/
theorem analyze_deterministic_up_to_time (text : List Char)
    (options : AnalysisOptions) (pt₁ pt₂ : ℚ) :
    (analyze text options pt₁).map strip_processing_time =
      (analyze text options pt₂).map strip_processing_time := by
  unfold analyze
  cases validate_text_length text with
  | error e => rfl
  | ok u => simp [Except.map, calculate_metadata, strip_processing_time]

/-- C4: for any chunk size at least 1 and any per-chunk analysis whatsoever,
`batch_analyze` returns words whose `index` values are exactly `0..N-1` in
order, with no gaps and no repeats. -/
theorem batch_analyze_reindexes_dense
    (chunkFn : List Char → AnalysisOptions → List Word) (lang_code : String)
    (text : List Char) (options : AnalysisOptions) (chunk_size : ℕ) (pt : ℚ)
    (h : 1 ≤ chunk_size) :
    (batch_analyze chunkFn lang_code text options chunk_size pt).words.map Word.index =
      List.range (batch_analyze chunkFn lang_code text options chunk_size pt).words.length := by
  unfold batch_analyze
  dsimp only
  rw [List.map_map, List.length_map]
  have hcomp : (Word.index ∘ fun p : ℕ × Word => { p.2 with index := p.1 }) = Prod.fst := rfl
  rw [hcomp, List.enum_map_fst, List.enum_length]

/-- Witness for `batch_analyze_reindexes_dense`: a per-chunk analysis that
labels every word with index 99 still yields the dense indices `0..N-1`. -/
theorem batch_analyze_reindexes_dense_witness :
    1 ≤ 1 ∧
    (batch_analyze
        (fun t _ => (tokenize_text t).map (fun tok =>
          ⟨tok.text, 99, tok.start, tok.end_, 0, 100,
            ⟨1, 0, Emphasis.none, Tone.neutral, Option.none, Option.none⟩⟩))
        "a" ("One two. Three four.".toList) {} 1 0).words.map Word.index =
      List.range (batch_analyze
        (fun t _ => (tokenize_text t).map (fun tok =>
          ⟨tok.text, 99, tok.start, tok.end_, 0, 100,
            ⟨1, 0, Emphasis.none, Tone.neutral, Option.none, Option.none⟩⟩))
        "a" ("One two. Three four.".toList) {} 1 0).words.length :=
  ⟨by decide,
    batch_analyze_reindexes_dense
      (fun t _ => (tokenize_text t).map (fun tok =>
        ⟨tok.text, 99, tok.start, tok.end_, 0, 100,
          ⟨1, 0, Emphasis.none, Tone.neutral, Option.none, Option.none⟩⟩))
      "a" ("One two. Three four.".toList) {} 1 0 (by decide)⟩

theorem pyStrip_isEmpty_iff (l : List Char) :
    (pyStrip l).isEmpty = true ↔ ∀ c ∈ l, isSpaceChar c = true := by
  unfold pyStrip
  rw [List.isEmpty_iff, List.reverse_eq_nil_iff, List.dropWhile_eq_nil_iff]
  constructor
  · intro h c hc
    rw [← List.takeWhile_append_dropWhile (p := isSpaceChar) (l := l)] at hc
    rcases List.mem_append.mp hc with h' | h'
    · exact List.mem_takeWhile_imp h'
    · exact h c (List.mem_reverse.mpr h')
  · intro h c hc
    exact h c ((List.dropWhile_sublist isSpaceChar).subset (List.mem_reverse.mp hc))

theorem analyze_isError_iff_validate (text : List Char)
    (options : AnalysisOptions) (pt : ℚ) :
    (∃ e, analyze text options pt = Except.error e) ↔
      ∃ e, validate_text_length text = Except.error e := by
  unfold analyze
  cases hv : validate_text_length text <;> simp

theorem validate_error_iff (text : List Char) :
    (∃ e, validate_text_length text = Except.error e) ↔
      (text = [] ∨ (∀ c ∈ text, isSpaceChar c = true) ∨ text.length > 500000) := by
  unfold validate_text_length
  split_ifs with h1 h2
  · constructor
    · intro _
      rcases Bool.or_eq_true _ _ |>.mp h1 with h | h
      · exact Or.inl (List.isEmpty_iff.mp h)
      · exact Or.inr (Or.inl ((pyStrip_isEmpty_iff text).mp h))
    · intro _
      exact ⟨_, rfl⟩
  · constructor
    · intro _
      exact Or.inr (Or.inr h2)
    · intro _
      exact ⟨_, rfl⟩
  · constructor
    · intro ⟨e, he⟩
      exact absurd he (by simp)
    · intro h
      rcases h with h | h | h
      · exact absurd (by simp [h] : (text.isEmpty || (pyStrip text).isEmpty) = true) h1
      · exact absurd (by simp [(pyStrip_isEmpty_iff text).mpr h] :
          (text.isEmpty || (pyStrip text).isEmpty) = true) h1
      · exact absurd h h2

/-- C5: the rule-based `analyze` fails if and only if the input text is
empty, whitespace-only, or longer than 500000 characters; on every other
text with valid options it returns a result. -/
theorem analyze_error_iff (text : List Char) (options : AnalysisOptions)
    (pt : ℚ) (hv : validOptions options) :
    (∃ e, analyze text options pt = Except.error e) ↔
      (text = [] ∨ (∀ c ∈ text, isSpaceChar c = true) ∨ text.length > 500000) :=
  (analyze_isError_iff_validate text options pt).trans (validate_error_iff text)

/-- Witness for `analyze_error_iff`: the empty text errors and a two-letter
text does not. -/
theorem analyze_error_iff_witness :
    validOptions {} ∧ (∃ e, analyze [] {} 0 = Except.error e) ∧
      ¬ (∃ e, analyze ("Hi".toList) {} 0 = Except.error e) := by
  have hv : validOptions ({} : AnalysisOptions) := by
    refine ⟨by norm_num, by norm_num, by norm_num, by norm_num⟩
  refine ⟨hv, ?_, ?_⟩
  · exact (analyze_error_iff [] {} 0 hv).mpr (Or.inl rfl)
  · intro h
    exact absurd ((analyze_error_iff ("Hi".toList) {} 0 hv).mp h) (by decide)

/-- C7: every word of one `analyze` call carries the same
`baseDelay = 60000 / wpm` (integer division). -/
theorem analyze_baseDelay_uniform (text : List Char)
    (options : AnalysisOptions) (pt : ℚ) (hv : validOptions options)
    (r : ProsodyResult) (hr : analyze text options pt = Except.ok r) :
    ∀ w ∈ r.words, w.baseDelay = 60000 / options.wpm := by
  unfold analyze at hr
  cases hval : validate_text_length text with
  | error e => rw [hval] at hr; exact absurd hr (by simp)
  | ok u =>
    rw [hval] at hr
    obtain rfl := (Except.ok.inj hr).symm
    intro w hw
    obtain ⟨p, hp, rfl⟩ := List.mem_map.mp hw
    rfl

/-- Witness for `analyze_baseDelay_uniform`: `analyze("Testing speed",
wpm=600)` succeeds and gives every word `baseDelay = 100`. -/
theorem analyze_baseDelay_uniform_witness :
    validOptions ⟨600, 7/10⟩ ∧
    (analyze ("Testing speed".toList) ⟨600, 7/10⟩ 0).isOk = true ∧
    ∀ w ∈ (match analyze ("Testing speed".toList) ⟨600, 7/10⟩ 0 with
           | Except.ok r => r.words
           | Except.error _ => []), w.baseDelay = 100 := by
  have hv : validOptions (⟨600, 7/10⟩ : AnalysisOptions) := by
    refine ⟨by norm_num, by norm_num, by norm_num, by norm_num⟩
  refine ⟨hv, ?_, ?_⟩
  · decide
  · cases hres : analyze ("Testing speed".toList) ⟨600, 7/10⟩ 0 with
    | error e => simp
    | ok r =>
      simp only []
      intro w hw
      have h := analyze_baseDelay_uniform ("Testing speed".toList) ⟨600, 7/10⟩ 0 hv r hres w hw
      simpa using h

theorem PUNCTUATION_PAUSES_bounds (c : Char) :
    1 ≤ PUNCTUATION_PAUSES c ∧ PUNCTUATION_PAUSES c ≤ 5/2 := by
  unfold PUNCTUATION_PAUSES
  split_ifs <;> norm_num

theorem base_delay_le (wpm : ℕ) (h : 100 ≤ wpm) : 60000 / wpm ≤ 600 := by
  calc 60000 / wpm ≤ 60000 / 100 := Nat.div_le_div_left h (by norm_num)
  _ = 600 := by norm_num

theorem pyInt_nonneg {x : ℚ} (h : 0 ≤ x) : 0 ≤ pyInt x := by
  unfold pyInt
  rw [if_pos h]
  exact Int.floor_nonneg.mpr h

theorem pyInt_le_of_le {x : ℚ} {n : ℤ} (h0 : 0 ≤ x) (h : x ≤ (n : ℚ)) :
    pyInt x ≤ n := by
  unfold pyInt
  rw [if_pos h0]
  exact (Int.floor_mono h).trans (by simp)

theorem punct_pause_bounds (s : ℚ) (hs0 : 0 ≤ s) (hs1 : s ≤ 1) (tp : Char) :
    1 ≤ 1 + (PUNCTUATION_PAUSES tp - 1) * s ∧
      1 + (PUNCTUATION_PAUSES tp - 1) * s ≤ 5/2 := by
  obtain ⟨hm1, hm2⟩ := PUNCTUATION_PAUSES_bounds tp
  constructor <;> nlinarith

theorem punct_pauseAfter_bounds (b : ℕ) (hb : b ≤ 600) (tp : Char) :
    0 ≤ pyInt ((b : ℚ) * (PUNCTUATION_PAUSES tp - 1) * (1/2)) ∧
      pyInt ((b : ℚ) * (PUNCTUATION_PAUSES tp - 1) * (1/2)) ≤ 450 := by
  obtain ⟨hm1, hm2⟩ := PUNCTUATION_PAUSES_bounds tp
  have h0 : (0:ℚ) ≤ (b : ℚ) * (PUNCTUATION_PAUSES tp - 1) * (1/2) :=
    mul_nonneg (mul_nonneg (Nat.cast_nonneg b) (by linarith)) (by norm_num)
  have hb' : (b : ℚ) ≤ 600 := by exact_mod_cast hb
  refine ⟨pyInt_nonneg h0, pyInt_le_of_le h0 ?_⟩
  push_cast
  nlinarith

theorem analyze_word_prosody_eq (token : Token) (index : ℕ)
    (all_tokens : List Token) (options : AnalysisOptions) :
    (analyze_word token index all_tokens options).prosody =
      pd_star token.text (pd_quote token.text (pd_gap token index all_tokens
        (60000 / options.wpm) (pd_len (strip_punctuation token.text)
        (pd_caps (strip_punctuation token.text)
        (pd_punct token.text (60000 / options.wpm) options.sensitivity))))) := rfl

theorem pd_punct_bounds (text : List Char) (base : ℕ) (s : ℚ)
    (hs0 : 0 ≤ s) (hs1 : s ≤ 1) (hb : base ≤ 600) :
    1 ≤ (pd_punct text base s).pause ∧ (pd_punct text base s).pause ≤ 5/2 ∧
    0 ≤ (pd_punct text base s).pauseAfter ∧
    (pd_punct text base s).pauseAfter ≤ 450 := by
  unfold pd_punct
  cases hgt : get_trailing_punctuation text with
  | none => exact ⟨by norm_num, by norm_num, by norm_num, by norm_num⟩
  | some tp =>
    have hp := punct_pause_bounds s hs0 hs1 tp
    have hpa := punct_pauseAfter_bounds base hb tp
    dsimp only
    split_ifs <;> refine ⟨?_, ?_, ?_, ?_⟩ <;> dsimp only <;>
      first | linarith | norm_num

theorem pd_caps_bounds (clean : List Char) (p : ProsodyData)
    (h1 : 1 ≤ p.pause) (h2 : p.pause ≤ 5/2) :
    1 ≤ (pd_caps clean p).pause ∧ (pd_caps clean p).pause ≤ 3 ∧
    (pd_caps clean p).pauseAfter = p.pauseAfter := by
  unfold pd_caps
  split_ifs <;> refine ⟨?_, ?_, rfl⟩ <;> dsimp only <;> nlinarith

theorem pd_len_bounds (clean : List Char) (p : ProsodyData)
    (h1 : 1 ≤ p.pause) (h2 : p.pause ≤ 3) :
    1/2 ≤ (pd_len clean p).pause ∧ (pd_len clean p).pause ≤ 5 ∧
    (pd_len clean p).pauseAfter = p.pauseAfter := by
  unfold pd_len
  split_ifs <;> refine ⟨?_, ?_, rfl⟩ <;> dsimp only <;> nlinarith

theorem pd_gap_bounds (token : Token) (index : ℕ) (all_tokens : List Token)
    (base : ℕ) (p : ProsodyData) (hb : base ≤ 600)
    (h1 : 0 ≤ p.pauseAfter) (h2 : p.pauseAfter ≤ 450) :
    0 ≤ (pd_gap token index all_tokens base p).pauseAfter ∧
    (pd_gap token index all_tokens base p).pauseAfter ≤ 2000 ∧
    (pd_gap token index all_tokens base p).pause = p.pause := by
  have hbZ : ((base : ℕ) : ℤ) ≤ 600 := by exact_mod_cast hb
  have hbZ0 : (0:ℤ) ≤ ((base : ℕ) : ℤ) := Int.ofNat_nonneg _
  unfold pd_gap
  split_ifs
  · cases all_tokens.get? (index - 1) with
    | none => exact ⟨h1, by linarith, rfl⟩
    | some prev =>
      dsimp only
      split_ifs <;> refine ⟨?_, ?_, rfl⟩ <;> dsimp only <;> linarith
  · exact ⟨h1, by linarith, rfl⟩

theorem pd_quote_prosody (text : List Char) (p : ProsodyData) :
    (pd_quote text p).pause = p.pause ∧
    (pd_quote text p).pauseAfter = p.pauseAfter := by
  unfold pd_quote
  split_ifs <;> exact ⟨rfl, rfl⟩

theorem pd_star_prosody (text : List Char) (p : ProsodyData) :
    (pd_star text p).pause = p.pause ∧
    (pd_star text p).pauseAfter = p.pauseAfter := by
  unfold pd_star
  split_ifs <;> exact ⟨rfl, rfl⟩

theorem analyze_word_prosody_bounds (token : Token) (index : ℕ)
    (all_tokens : List Token) (options : AnalysisOptions)
    (hv : validOptions options) :
    1/2 ≤ (analyze_word token index all_tokens options).prosody.pause ∧
    (analyze_word token index all_tokens options).prosody.pause ≤ 5 ∧
    0 ≤ (analyze_word token index all_tokens options).prosody.pauseAfter ∧
    (analyze_word token index all_tokens options).prosody.pauseAfter ≤ 2000 := by
  obtain ⟨h100, h1000, hs0, hs1⟩ := hv
  have hbase : 60000 / options.wpm ≤ 600 := base_delay_le options.wpm h100
  rw [analyze_word_prosody_eq]
  obtain ⟨ha1, ha2, ha3, ha4⟩ :=
    pd_punct_bounds token.text (60000 / options.wpm) options.sensitivity hs0 hs1 hbase
  obtain ⟨hb1, hb2, hb3⟩ :=
    pd_caps_bounds (strip_punctuation token.text) _ ha1 ha2
  obtain ⟨hc1, hc2, hc3⟩ :=
    pd_len_bounds (strip_punctuation token.text) _ hb1 hb2
  obtain ⟨hd1, hd2, hd3⟩ :=
    pd_gap_bounds token index all_tokens (60000 / options.wpm) _ hbase
      (by rw [hc3, hb3]; exact ha3) (by rw [hc3, hb3]; exact ha4)
  obtain ⟨he1, he2⟩ := pd_quote_prosody token.text
    (pd_gap token index all_tokens (60000 / options.wpm)
      (pd_len (strip_punctuation token.text) (pd_caps (strip_punctuation token.text)
        (pd_punct token.text (60000 / options.wpm) options.sensitivity))))
  obtain ⟨hf1, hf2⟩ := pd_star_prosody token.text
    (pd_quote token.text (pd_gap token index all_tokens (60000 / options.wpm)
      (pd_len (strip_punctuation token.text) (pd_caps (strip_punctuation token.text)
        (pd_punct token.text (60000 / options.wpm) options.sensitivity)))))
  rw [hf1, hf2, he1, he2, hd3]
  exact ⟨hc1, hc2, hd1, hd2⟩

/-- C2: every word that `analyze` returns has
`0.5 ≤ pause ≤ 5.0` and `0 ≤ pauseAfter ≤ 2000`, for any valid options. -/
theorem analyze_prosody_clamped (text : List Char)
    (options : AnalysisOptions) (pt : ℚ) (r : ProsodyResult)
    (hv : validOptions options) (hr : analyze text options pt = Except.ok r) :
    ∀ w ∈ r.words, 1/2 ≤ w.prosody.pause ∧ w.prosody.pause ≤ 5 ∧
      0 ≤ w.prosody.pauseAfter ∧ w.prosody.pauseAfter ≤ 2000 := by
  unfold analyze at hr
  cases hval : validate_text_length text with
  | error e => rw [hval] at hr; exact absurd hr (by simp)
  | ok u =>
    rw [hval] at hr
    obtain rfl := (Except.ok.inj hr).symm
    intro w hw
    obtain ⟨p, hp, rfl⟩ := List.mem_map.mp hw
    exact analyze_word_prosody_bounds p.2 p.1 _ options hv

/-- Witness for `analyze_prosody_clamped`: the clamps hold on every word of
`analyze("Hello, world!")` with the default options. -/
theorem analyze_prosody_clamped_witness :
    validOptions {} ∧ (analyze ("Hello, world!".toList) {} 0).isOk = true ∧
    ∀ w ∈ (match analyze ("Hello, world!".toList) {} 0 with
           | Except.ok r => r.words
           | Except.error _ => []),
      1/2 ≤ w.prosody.pause ∧ w.prosody.pause ≤ 5 ∧
        0 ≤ w.prosody.pauseAfter ∧ w.prosody.pauseAfter ≤ 2000 := by
  have hv : validOptions ({} : AnalysisOptions) := by
    refine ⟨by norm_num, by norm_num, by norm_num, by norm_num⟩
  refine ⟨hv, ?_, ?_⟩
  · decide
  · cases hres : analyze ("Hello, world!".toList) {} 0 with
    | error e => simp
    | ok r =>
      simp only []
      exact analyze_prosody_clamped ("Hello, world!".toList) {} 0 r hv hres

theorem takeWhile_all_append (p : α → Bool) (l₁ l₂ : List α)
    (h : ∀ c ∈ l₁, p c = true) :
    (l₁ ++ l₂).takeWhile p = l₁ ++ l₂.takeWhile p := by
  induction l₁ with
  | nil => rfl
  | cons a l ih =>
    simp only [List.cons_append, List.takeWhile_cons, h a (by simp)]
    simp [ih (fun c hc => h c (by simp [hc]))]

theorem dropWhile_all_append (p : α → Bool) (l₁ l₂ : List α)
    (h : ∀ c ∈ l₁, p c = true) :
    (l₁ ++ l₂).dropWhile p = l₂.dropWhile p := by
  induction l₁ with
  | nil => rfl
  | cons a l ih =>
    simp only [List.cons_append, List.dropWhile_cons, h a (by simp)]
    exact ih (fun c hc => h c (by simp [hc]))

theorem tokenizeAux_word_block (w rest : List Char) (pos : ℕ) (hw : w ≠ [])
    (hns : ∀ c ∈ w, isSpaceChar c = false) :
    tokenizeAux (w ++ ' ' :: rest) pos =
      ⟨w, pos, pos + w.length⟩ :: tokenizeAux rest (pos + w.length + 1) := by
  cases w with
  | nil => exact absurd rfl hw
  | cons c cs =>
    rw [List.cons_append, tokenizeAux.eq_def]
    dsimp only
    rw [if_neg (by simp [hns c (by simp)])]
    have htake : (cs ++ ' ' :: rest).takeWhile (fun d => !isSpaceChar d) = cs := by
      rw [takeWhile_all_append _ cs _
        (fun d hd => by simp [hns d (by simp [hd])])]
      simp [List.takeWhile_cons, isSpaceChar]
    have hdrop : (cs ++ ' ' :: rest).dropWhile (fun d => !isSpaceChar d) = ' ' :: rest := by
      rw [dropWhile_all_append _ cs _
        (fun d hd => by simp [hns d (by simp [hd])])]
      simp [List.dropWhile_cons, isSpaceChar]
    rw [htake, hdrop]
    have hspace : tokenizeAux (' ' :: rest) (pos + (c :: cs).length) =
        tokenizeAux rest (pos + (c :: cs).length + 1) := by
      rw [tokenizeAux.eq_def]
      dsimp only
      rw [if_pos (by simp [isSpaceChar])]
    rw [hspace]

theorem tokenizeAux_joinSpace (ws : List (List Char)) (pos : ℕ)
    (h : ∀ w ∈ ws, w ≠ [] ∧ ∀ c ∈ w, isSpaceChar c = false) :
    tokenizeAux (joinSpace ws) pos = expectedTokens pos ws := by
  induction ws generalizing pos with
  | nil =>
    rw [tokenizeAux.eq_def]
    rfl
  | cons w ws ih =>
    cases ws with
    | nil =>
      obtain ⟨hw, hns⟩ := h w (by simp)
      cases w with
      | nil => exact absurd rfl hw
      | cons c cs =>
        show tokenizeAux (c :: cs) pos = _
        rw [tokenizeAux.eq_def]
        dsimp only
        rw [if_neg (by simp [hns c (by simp)])]
        have htake : cs.takeWhile (fun d => !isSpaceChar d) = cs :=
          List.takeWhile_eq_self_iff.mpr (fun d hd => by simp [hns d (by simp [hd])])
        have hdrop : cs.dropWhile (fun d => !isSpaceChar d) = [] :=
          List.dropWhile_eq_nil_iff.mpr (fun d hd => by simp [hns d (by simp [hd])])
        rw [htake, hdrop, tokenizeAux.eq_def]
        rfl
    | cons w' ws' =>
      obtain ⟨hw, hns⟩ := h w (by simp)
      have hjoin : joinSpace (w :: w' :: ws') = w ++ ' ' :: joinSpace (w' :: ws') := rfl
      rw [hjoin, tokenizeAux_word_block w _ pos hw hns,
        ih (pos + w.length + 1) (fun x hx => h x (by simp [hx]))]
      rfl

theorem pySplit_words (text : List Char) :
    ∀ w ∈ pySplit text, w ≠ [] ∧ ∀ c ∈ w, isSpaceChar c = false := by
  induction text using pySplit.induct with
  | case1 => simp [pySplit]
  | case2 c cs hc ih =>
    rw [pySplit.eq_def]
    dsimp only
    rw [if_pos hc]
    exact ih
  | case3 c cs hc ih =>
    rw [pySplit.eq_def]
    dsimp only
    rw [if_neg hc]
    intro w hw
    rcases List.mem_cons.mp hw with rfl | hw'
    · refine ⟨by simp, ?_⟩
      intro d hd
      rcases List.mem_cons.mp hd with rfl | hd'
      · exact Bool.not_eq_true _ |>.mp hc
      · have := List.mem_takeWhile_imp hd'
        simpa using this
    · exact ih w hw'

theorem expectedTokens_gap (ws : List (List Char)) :
    ∀ (pos i : ℕ) (h : i + 1 < (expectedTokens pos ws).length),
      ((expectedTokens pos ws).get ⟨i + 1, h⟩).start =
        ((expectedTokens pos ws).get ⟨i, Nat.lt_of_succ_lt h⟩).end_ + 1 := by
  induction ws with
  | nil =>
    intro pos i h
    simp [expectedTokens] at h
  | cons w ws ih =>
    intro pos i h
    cases ws with
    | nil =>
      simp [expectedTokens] at h
    | cons w' ws' =>
      cases i with
      | zero => simp [expectedTokens]
      | succ i' =>
        have h' : i' + 1 < (expectedTokens (pos + w.length + 1) (w' :: ws')).length := by
          simpa [expectedTokens] using h
        have := ih (pos + w.length + 1) i' h'
        simpa [expectedTokens] using this

theorem tokenize_preprocess (text : List Char) :
    tokenize_text (preprocess_text text) = expectedTokens 0 (pySplit text) :=
  tokenizeAux_joinSpace (pySplit text) 0 (pySplit_words text)

theorem preprocess_gap_one (text : List Char) (i : ℕ)
    (h : i + 1 < (tokenize_text (preprocess_text text)).length) :
    ((tokenize_text (preprocess_text text)).get ⟨i + 1, h⟩).start =
      ((tokenize_text (preprocess_text text)).get ⟨i, Nat.lt_of_succ_lt h⟩).end_ + 1 := by
  revert h
  rw [tokenize_preprocess]
  exact expectedTokens_gap (pySplit text) 0 i

theorem analyze_word_build (token : Token) (index : ℕ)
    (all_tokens : List Token) (options : AnalysisOptions) :
    analyze_word token index all_tokens options =
      ⟨token.text, index, token.start, token.end_,
        calculate_pivot_index (strip_punctuation token.text), 60000 / options.wpm,
        pd_star token.text (pd_quote token.text (pd_gap token index all_tokens
          (60000 / options.wpm) (pd_len (strip_punctuation token.text)
          (pd_caps (strip_punctuation token.text)
          (pd_punct token.text (60000 / options.wpm) options.sensitivity)))))⟩ := rfl

theorem analyze_word_no_gap_build (token : Token) (index : ℕ)
    (options : AnalysisOptions) :
    analyze_word_no_gap token index options =
      ⟨token.text, index, token.start, token.end_,
        calculate_pivot_index (strip_punctuation token.text), 60000 / options.wpm,
        pd_star token.text (pd_quote token.text (pd_len (strip_punctuation token.text)
          (pd_caps (strip_punctuation token.text)
          (pd_punct token.text (60000 / options.wpm) options.sensitivity))))⟩ := rfl

theorem pd_gap_inert (token : Token) (index : ℕ) (all_tokens : List Token)
    (base : ℕ) (p : ProsodyData)
    (hgap : ∀ prev, index > 0 → all_tokens.get? (index - 1) = Option.some prev →
      ¬((token.start : ℤ) - (prev.end_ : ℤ) > 2)) :
    pd_gap token index all_tokens base p = p := by
  unfold pd_gap
  split_ifs with h
  · cases hprev : all_tokens.get? (index - 1) with
    | none => rfl
    | some prev => exact if_neg (hgap prev h hprev)
  · rfl

theorem analyze_word_eq_no_gap (token : Token) (index : ℕ)
    (all_tokens : List Token) (options : AnalysisOptions)
    (hgap : ∀ prev, index > 0 → all_tokens.get? (index - 1) = Option.some prev →
      ¬((token.start : ℤ) - (prev.end_ : ℤ) > 2)) :
    analyze_word token index all_tokens options =
      analyze_word_no_gap token index options := by
  rw [analyze_word_build, analyze_word_no_gap_build,
    pd_gap_inert token index all_tokens (60000 / options.wpm) _ hgap]

theorem analyze_eq_no_gap (text : List Char) (options : AnalysisOptions)
    (pt : ℚ) :
    analyze text options pt = analyze_no_gap text options pt := by
  unfold analyze analyze_no_gap
  cases hval : validate_text_length text with
  | error e => rfl
  | ok u =>
    have hwords : (tokenize_text (preprocess_text text)).enum.map
        (fun p => analyze_word p.2 p.1 (tokenize_text (preprocess_text text)) options) =
        (tokenize_text (preprocess_text text)).enum.map
        (fun p => analyze_word_no_gap p.2 p.1 options) := by
      apply List.map_congr_left
      intro p hp
      obtain ⟨j, tok⟩ := p
      have hget := List.mem_enum_iff_get?.mp hp
      apply analyze_word_eq_no_gap
      intro prev hpos hprev
      dsimp only at hget hpos hprev ⊢
      obtain ⟨hlt, hgeteq⟩ := List.get?_eq_some.mp hget
      obtain ⟨hlt', hgeteq'⟩ := List.get?_eq_some.mp hprev
      obtain ⟨i, rfl⟩ : ∃ i, j = i + 1 := ⟨j - 1, by omega⟩
      have hstep := preprocess_gap_one text i (by simpa using hlt)
      simp only [Nat.add_sub_cancel] at hgeteq'
      have hin : tok.start = prev.end_ + 1 := by
        rw [← hgeteq, ← hgeteq']
        exact hstep
      omega
    dsimp only
    rw [hwords]

/-- C9: after the default preprocessing (whitespace collapsed to single
spaces) every adjacent token pair in `analyze`'s pipeline has
`start − previous end = 1`, so the paragraph-gap condition `gap > 2` never
fires and `analyze` agrees with the variant whose gap branch is removed. -/
theorem paragraph_gap_unreachable (text : List Char)
    (options : AnalysisOptions) (pt : ℚ) :
    (∀ (i : ℕ) (h : i + 1 < (tokenize_text (preprocess_text text)).length),
      ((tokenize_text (preprocess_text text)).get ⟨i + 1, h⟩).start =
        ((tokenize_text (preprocess_text text)).get
          ⟨i, Nat.lt_of_succ_lt h⟩).end_ + 1) ∧
    analyze text options pt = analyze_no_gap text options pt :=
  ⟨fun i h => preprocess_gap_one text i h, analyze_eq_no_gap text options pt⟩

/-- Witness for `paragraph_gap_unreachable`, on a text with two blank-ish
gaps: the adjacent-token gap is exactly one despite the double space. -/
theorem paragraph_gap_unreachable_witness :
    ((tokenize_text (preprocess_text ("a  b".toList))).get
        ⟨1, by rw [tokenize_preprocess]; simp [pySplit, expectedTokens, isSpaceChar]⟩).start =
      ((tokenize_text (preprocess_text ("a  b".toList))).get
        ⟨0, by rw [tokenize_preprocess]; simp [pySplit, expectedTokens, isSpaceChar]⟩).end_ + 1 ∧
    analyze ("a  b".toList) {} 0 = analyze_no_gap ("a  b".toList) {} 0 :=
  ⟨(paragraph_gap_unreachable ("a  b".toList) {} 0).1 0
      (by rw [tokenize_preprocess]; simp [pySplit, expectedTokens, isSpaceChar]),
    (paragraph_gap_unreachable ("a  b".toList) {} 0).2⟩

/-- C10 (counterexample): the token `ABC"` ends in a character outside the
trailing-punctuation class, so the extractor returns none — yet the engine
does not assign `pause = 1.0`: the all-caps bonus gives it 1.2. -/
theorem trailing_quote_caps_counterexample :
    get_trailing_punctuation ("ABC\"".toList) = Option.none ∧
    (analyze_word ⟨("ABC\"".toList), 0, 4⟩ 0
        [⟨("ABC\"".toList), 0, 4⟩] {}).prosody.pause ≠ 1 := by
  constructor
  · decide
  · norm_num +decide [analyze_word, strip_punctuation, get_trailing_punctuation,
      isWordChar, isTrailPunctChar, pyIsUpper, calculate_pivot_index,
      PUNCTUATION_PAUSES, pyInt]

theorem pd_punct_none (text : List Char) (base : ℕ) (s : ℚ)
    (h : get_trailing_punctuation text = Option.none) :
    pd_punct text base s =
      { pause := 1, pauseAfter := 0, emphasis := Emphasis.none,
        tone := Tone.neutral } := by
  unfold pd_punct
  rw [h]

theorem pd_caps_fields (clean : List Char) (p : ProsodyData) :
    (pd_caps clean p).pauseAfter = p.pauseAfter ∧
    (pd_caps clean p).tone = p.tone ∧
    (pd_caps clean p).pause = p.pause *
      (if pyIsUpper clean ∧ clean.length > 2 then (12/10 : ℚ) else 1) := by
  unfold pd_caps
  split_ifs <;> refine ⟨rfl, rfl, ?_⟩ <;> ring

theorem pd_len_fields (clean : List Char) (p : ProsodyData) :
    (pd_len clean p).pauseAfter = p.pauseAfter ∧
    (pd_len clean p).tone = p.tone ∧
    (pd_len clean p).pause = p.pause *
      (if clean.length > 10 then (11/10 : ℚ) else 1) := by
  unfold pd_len
  split_ifs with h1 h2 <;> refine ⟨rfl, rfl, ?_⟩
  · ring
  · omega
  · ring

theorem pd_quote_tone (text : List Char) (p : ProsodyData) :
    (pd_quote text p).tone = p.tone := by
  unfold pd_quote
  split_ifs <;> rfl

theorem pd_star_tone (text : List Char) (p : ProsodyData) :
    (pd_star text p).tone = p.tone := by
  unfold pd_star
  split_ifs <;> rfl

theorem get_trailing_punctuation_none_of_last (t : List Char) (c : Char)
    (hlast : t.getLast? = Option.some c) (hpunct : isTrailPunctChar c = false) :
    get_trailing_punctuation t = Option.none := by
  unfold get_trailing_punctuation
  have hhead : t.reverse.head? = Option.some c := by
    rw [List.head?_reverse]
    exact hlast
  cases hrev : t.reverse with
  | nil => simp [hrev] at hhead
  | cons a rest =>
    rw [hrev] at hhead
    obtain rfl : a = c := by simpa using hhead
    rw [List.takeWhile_cons, hpunct]
    rfl

/-- C10 (amended): a token whose final character is outside the
trailing-punctuation class gets no trailing punctuation from the extractor,
and the engine then leaves its tone neutral and its pauseAfter 0, while the
pause is 1.0 except for the all-caps bonus (×1.2) and the length bonus
(×1.1), which still apply. -/
theorem no_trailing_punct_defaults (text : List Char)
    (options : AnalysisOptions) (pt : ℚ) (r : ProsodyResult)
    (hr : analyze text options pt = Except.ok r) :
    (∀ (t : List Char) (c : Char), t.getLast? = Option.some c →
      isTrailPunctChar c = false → get_trailing_punctuation t = Option.none) ∧
    ∀ w ∈ r.words, get_trailing_punctuation w.text = Option.none →
      w.prosody.tone = Tone.neutral ∧ w.prosody.pauseAfter = 0 ∧
      w.prosody.pause =
        (if pyIsUpper (strip_punctuation w.text) ∧
            (strip_punctuation w.text).length > 2 then (12/10 : ℚ) else 1) *
        (if (strip_punctuation w.text).length > 10 then (11/10 : ℚ) else 1) := by
  refine ⟨fun t c hl hp => get_trailing_punctuation_none_of_last t c hl hp, ?_⟩
  rw [analyze_eq_no_gap] at hr
  unfold analyze_no_gap at hr
  cases hval : validate_text_length text with
  | error e => rw [hval] at hr; exact absurd hr (by simp)
  | ok u =>
    rw [hval] at hr
    obtain rfl := (Except.ok.inj hr).symm
    intro w hw htr
    obtain ⟨p, hp, rfl⟩ := List.mem_map.mp hw
    rw [analyze_word_no_gap_build] at htr ⊢
    dsimp only at htr ⊢
    rw [pd_punct_none p.2.text (60000 / options.wpm) options.sensitivity htr]
    obtain ⟨hc1, hc2, hc3⟩ := pd_caps_fields (strip_punctuation p.2.text)
      { pause := 1, pauseAfter := 0, emphasis := Emphasis.none, tone := Tone.neutral }
    obtain ⟨hl1, hl2, hl3⟩ := pd_len_fields (strip_punctuation p.2.text)
      (pd_caps (strip_punctuation p.2.text)
        { pause := 1, pauseAfter := 0, emphasis := Emphasis.none, tone := Tone.neutral })
    refine ⟨?_, ?_, ?_⟩
    · rw [pd_star_tone, pd_quote_tone, hl2, hc2]
    · rw [(pd_star_prosody _ _).2, (pd_quote_prosody _ _).2, hl1, hc1]
    · rw [(pd_star_prosody _ _).1, (pd_quote_prosody _ _).1, hl3, hc3]
      ring

/-- Witness for `no_trailing_punct_defaults`: in `analyze("ok\" yes")` the
first word `ok"` ends in a quote, gets no trailing punctuation, and keeps
the default pause, pauseAfter, and tone. -/
theorem no_trailing_punct_defaults_witness :
    (analyze ("ok\" yes".toList) {} 0).isOk = true ∧
    get_trailing_punctuation ("ok\"".toList) = Option.none ∧
    ∀ w ∈ (match analyze ("ok\" yes".toList) {} 0 with
           | Except.ok r => r.words
           | Except.error _ => []),
      get_trailing_punctuation w.text = Option.none →
        w.prosody.tone = Tone.neutral ∧ w.prosody.pauseAfter = 0 ∧
        w.prosody.pause =
          (if pyIsUpper (strip_punctuation w.text) ∧
              (strip_punctuation w.text).length > 2 then (12/10 : ℚ) else 1) *
          (if (strip_punctuation w.text).length > 10 then (11/10 : ℚ) else 1) := by
  refine ⟨by decide, ?_, ?_⟩
  · cases hres : analyze ("ok\" yes".toList) {} 0 with
    | error e =>
      have hok : (analyze ("ok\" yes".toList) {} 0).isOk = true := by decide
      rw [hres] at hok
      simp [Except.isOk, Except.toBool] at hok
    | ok r =>
      exact (no_trailing_punct_defaults ("ok\" yes".toList) {} 0 r hres).1
        ("ok\"".toList) '"' (by decide) (by decide)
  · cases hres : analyze ("ok\" yes".toList) {} 0 with
    | error e => simp
    | ok r =>
      simp only []
      exact (no_trailing_punct_defaults ("ok\" yes".toList) {} 0 r hres).2
